import Mathlib

/-!
# Service handlers of `block_buddy_main.cpp`

A shallow embedding of `set_body_state` and of the three service handlers of
`SrvResponder` (`step`, `get_state`, `reset`).

* `d->time` is a finite double, given by the rational it denotes; poses and
  controls are only copied and are rationals too. The one place the handlers
  do arithmetic is the loop test of `step`: its subtraction, its constant
  `1.0 / maxrate` and its comparison are binary64 (`round64`).
* A registry `std::map<std::string, T*>` is the list of its entries in
  iteration (key) order; a pointer is `Option Nat`, `none` being the null
  pointer and `some a` the connector object at address `a`.
* The physics engine, the connector classes and `mushr_mujoco_util::reset` are
  declared in headers outside this file; they are the fields of `Engine`.
* Every call the handlers make on the guard, the engine or a connector that
  may write the simulation state is appended to `World.calls`.
-/

namespace BlockBuddy

/-- The message type `geometry_msgs/Point`. -/
structure Point where
  x : ℚ
  y : ℚ
  z : ℚ
  deriving DecidableEq, Inhabited

/-- The message type `geometry_msgs/Quaternion`. -/
structure Quaternion where
  x : ℚ
  y : ℚ
  z : ℚ
  w : ℚ
  deriving DecidableEq, Inhabited

/-- The message type `geometry_msgs/Pose`. -/
structure Pose where
  position : Point
  orientation : Quaternion
  deriving DecidableEq, Inhabited

/-- The message type `mushr_mujoco_ros/BodyState`: one named pose record. -/
structure BodyState where
  name : String
  pose : Pose
  deriving DecidableEq, Inhabited

/-- The message type `mushr_mujoco_ros/BodyStateArray`; `stamp` is `header.stamp`. -/
structure BodyStateArray where
  simtime : ℚ
  stamp : Nat
  states : List BodyState
  deriving DecidableEq, Inhabited

/-- The part of `mjData` the handlers read directly is `time`, a finite double
given by the rational it denotes; `rest` is everything else the engine keeps
there. -/
structure MjData (σ : Type) where
  time : ℚ
  rest : σ

/-- A binary64 value other than NaN: a finite value, given by the rational it
denotes (the two zeros are not told apart), or an infinity. -/
inductive Double where
  | fin (q : ℚ)
  | inf (neg : Bool)
  deriving DecidableEq

/-- Rounding to the nearest integer, a tie going to the even one. -/
def roundEven (x : ℚ) : ℤ :=
  if x - ⌊x⌋ < 1 / 2 then ⌊x⌋
  else if 1 / 2 < x - ⌊x⌋ then ⌊x⌋ + 1
  else if ⌊x⌋ % 2 = 0 then ⌊x⌋ else ⌊x⌋ + 1

/-- The exponent of the unit in the last place of the binary64 values around
`x ≠ 0`: 52 below the exponent of `x`, and never below -1074. -/
def ulpExp (x : ℚ) : ℤ := max (Int.log 2 |x| - 52) (-1074)

/-- Rounding of a rational to binary64, to nearest with ties to even; a result
of magnitude `2^1024` or more is an infinity. -/
def round64 (x : ℚ) : Double :=
  if x = 0 then .fin 0
  else if (2 : ℚ) ^ (1024 : ℕ) ≤ |(roundEven (x / 2 ^ ulpExp x) : ℚ) * 2 ^ ulpExp x| then
    .inf (decide (x < 0))
  else .fin ((roundEven (x / 2 ^ ulpExp x) : ℚ) * 2 ^ ulpExp x)

/-- The binary64 difference of two finite values. -/
def double_sub (a b : ℚ) : Double := round64 (a - b)

/-- The binary64 comparison `<`. -/
def double_lt : Double → Double → Bool
  | .fin a, .fin b => decide (a < b)
  | .fin _, .inf neg => !neg
  | .inf neg, .fin _ => neg
  | .inf a, .inf b => a && !b

/-- The local `maxrate` of `step`: the float `60.0`. -/
def maxrate : ℚ := 60

/-- The double `1.0 / maxrate` of the loop test of `step`. -/
def step_budget : Double := round64 (1 / maxrate)

/-- The test of the `while` loop of `step`: `d->time - simstart < 1.0 / maxrate`,
in binary64. -/
def loop_test (time simstart : ℚ) : Bool :=
  double_lt (double_sub time simstart) step_budget

/-- A connector pointer: `none` is the null pointer. -/
abbrev ConnPtr := Option Nat

/-- The entries of a `std::map<std::string, V>` in iteration order. -/
abbrev StdMap (V : Type) := List (String × V)

namespace StdMap

/-- The keys in iteration order. -/
def keys {V : Type} (m : StdMap V) : List String := m.map Prod.fst

/-- Lookup `std::map::find`: `none` stands for `end()`. -/
def find {V : Type} : StdMap V → String → Option V
  | [], _ => none
  | (k', v) :: rest, k => if k' = k then some v else find rest k

/-- Insertion of a fresh key at its place in key order. -/
def insertSorted {V : Type} (k : String) (v : V) : StdMap V → StdMap V
  | [] => [(k, v)]
  | (k', v') :: rest =>
    if k < k' then (k, v) :: (k', v') :: rest else (k', v') :: insertSorted k v rest

/-- The subscript `std::map::operator[]` on a map of pointers: the mapped
pointer, and the map afterwards. A key that is absent is first inserted with a
value-initialised (null) pointer. -/
def subscript (m : StdMap ConnPtr) (k : String) : ConnPtr × StdMap ConnPtr :=
  match m.find k with
  | some p => (p, m)
  | none => (none, m.insertSorted k none)

end StdMap

/-- The calls a handler makes on the guard, the engine and the connectors. -/
inductive Call where
  | mjdata_lock
  | mjdata_unlock
  | mj_step1
  | mj_step2
  | apply_control (car : Nat) (vel : ℚ) (steering_angle : ℚ)
  | util_reset
  | car_set_pose (car : Nat) (pose : Pose)
  | body_set_pose (body : Nat) (pose : Pose)
  deriving DecidableEq

/-- The collaborators declared outside this file, as functions on `mjData`.
`car_name`/`car_pose` (and the `body_` pair) are what a connector's own
`set_body_state(bs)` writes into the record `bs`. -/
structure Engine (σ : Type) where
  mj_step1 : MjData σ → MjData σ
  mj_step2 : MjData σ → MjData σ
  util_reset : MjData σ → MjData σ
  apply_control : Nat → MjData σ → ℚ → ℚ → MjData σ
  car_name : Nat → String
  car_pose : Nat → MjData σ → Pose
  car_set_pose : Nat → Pose → MjData σ → MjData σ
  body_name : Nat → String
  body_pose : Nat → MjData σ → Pose
  body_set_pose : Nat → Pose → MjData σ → MjData σ

/-- Everything the handlers act on: the data behind `mjglobal`, the pause
flag, the number of outstanding guard acquisitions, the two registries the
responder holds by reference, and the calls made so far (oldest first). -/
structure World (σ : Type) where
  d : MjData σ
  paused : Bool
  held : Nat
  car_conn : StdMap ConnPtr
  body_conn : StdMap ConnPtr
  calls : List Call

/-- How a handler ends. `nullDeref` and `outOfRange` are the two undefined
behaviours the handlers can reach (a member call through a null connector
pointer, a vector subscript past the end); `outOfFuel` is the loop bound of the
model being reached and stands for nothing in the program. -/
inductive Outcome (σ : Type) (α : Type) where
  | ret (val : α) (w : World σ)
  | nullDeref (w : World σ)
  | outOfRange (w : World σ)
  | outOfFuel (w : World σ)

namespace World

variable {σ : Type}

/-- One logged call that rewrites `mjData` by `f`. -/
def call (w : World σ) (c : Call) (f : MjData σ → MjData σ) : World σ :=
  { w with d := f w.d, calls := w.calls ++ [c] }

/-- The guard acquisition `mjglobal::mjdata_lock()`. -/
def mjdata_lock (w : World σ) : World σ :=
  { w with held := w.held + 1, calls := w.calls ++ [Call.mjdata_lock] }

/-- The guard release `mjglobal::mjdata_unlock()`. -/
def mjdata_unlock (w : World σ) : World σ :=
  { w with held := w.held - 1, calls := w.calls ++ [Call.mjdata_unlock] }

end World

variable {σ : Type}

/-- The first loop of `set_body_state`: one record per entry of `car_conn`,
pushed on the back of `states`; `none` when an entry holds a null pointer. -/
def push_car_states (E : Engine σ) (d : MjData σ) :
    StdMap ConnPtr → List BodyState → Option (List BodyState)
  | [], states => some states
  | (_, none) :: _, _ => none
  | (_, some cc) :: rest, states =>
    push_car_states E d rest (states ++ [⟨E.car_name cc, E.car_pose cc d⟩])

/-- The second loop of `set_body_state`, over `body_conn`. -/
def push_body_states (E : Engine σ) (d : MjData σ) :
    StdMap ConnPtr → List BodyState → Option (List BodyState)
  | [], states => some states
  | (_, none) :: _, _ => none
  | (_, some bc) :: rest, states =>
    push_body_states E d rest (states ++ [⟨E.body_name bc, E.body_pose bc d⟩])

/-- The free function `set_body_state`; `now` is the value `ros::Time::now()`
returns and `body_state` the message it is handed by reference. `none` when a
registry entry holds a null pointer. -/
def set_body_state (E : Engine σ) (now : Nat) (d : MjData σ)
    (car_conn body_conn : StdMap ConnPtr) (body_state : BodyStateArray) :
    Option BodyStateArray :=
  let body_state := { body_state with simtime := d.time }
  let body_state := { body_state with stamp := now }
  match push_car_states E d car_conn body_state.states with
  | none => none
  | some states =>
    match push_body_states E d body_conn states with
    | none => none
    | some states => some { body_state with states := states }

/-- The request of the `step` service: `ctrl.drive.speed` and
`ctrl.drive.steering_angle`. -/
structure StepRequest where
  speed : ℚ
  steering_angle : ℚ

/-- The request of the `reset` service. -/
structure ResetRequest where
  body_names : List String
  init_state : List Pose

/-- The `while` loop of `step`, with at most `fuel` iterations. The subscript
`car_conn["buddy"]` is evaluated in every pass, before the call through the
pointer it yields. -/
def step_loop (E : Engine σ) (vel steering_angle simstart : ℚ) :
    Nat → World σ → Outcome σ Unit
  | 0, w => if loop_test w.d.time simstart then .outOfFuel w else .ret () w
  | fuel + 1, w =>
    if loop_test w.d.time simstart then
      let w := w.call .mj_step1 E.mj_step1
      let buddy := w.car_conn.subscript "buddy"
      let w := { w with car_conn := buddy.2 }
      match buddy.1 with
      | none => .nullDeref w
      | some car =>
        let w := w.call (.apply_control car vel steering_angle)
          (fun d => E.apply_control car d vel steering_angle)
        let w := w.call .mj_step2 E.mj_step2
        step_loop E vel steering_angle simstart fuel w
    else .ret () w

/-- The tail shared by the three handlers: `set_body_state` into the response,
`mjdata_unlock`, `return true`. -/
def respond (E : Engine σ) (now : Nat) (res : BodyStateArray) (w : World σ) :
    Outcome σ (Bool × BodyStateArray) :=
  match set_body_state E now w.d w.car_conn w.body_conn res with
  | none => .nullDeref w
  | some body_state => .ret (true, body_state) w.mjdata_unlock

/-- The handler `SrvResponder::step`; `res` is `res.body_state` as handed in. -/
def step (E : Engine σ) (fuel now : Nat) (req : StepRequest) (res : BodyStateArray)
    (w : World σ) : Outcome σ (Bool × BodyStateArray) :=
  let w := w.mjdata_lock
  let vel := req.speed
  let steering_angle := req.steering_angle
  let simstart := w.d.time
  if !w.paused then
    match step_loop E vel steering_angle simstart fuel w with
    | .ret _ w => respond E now res w
    | .nullDeref w => .nullDeref w
    | .outOfRange w => .outOfRange w
    | .outOfFuel w => .outOfFuel w
  else respond E now res w

/-- The handler `SrvResponder::get_state`. -/
def get_state (E : Engine σ) (now : Nat) (res : BodyStateArray) (w : World σ) :
    Outcome σ (Bool × BodyStateArray) :=
  let w := w.mjdata_lock
  respond E now res w

/-- Second half of the body of the `for` loop of `reset`: the lookup in
`body_conn`. -/
def reset_entry_body (E : Engine σ) (name : String) (pose : Pose) (w : World σ) :
    Outcome σ Unit :=
  match w.body_conn.find name with
  | none => .ret () w
  | some none => .nullDeref w
  | some (some body) =>
    .ret () (w.call (.body_set_pose body pose) (E.body_set_pose body pose))

/-- The body of the `for` loop of `reset` for one name and its pose: the lookup
in `car_conn`, then the one in `body_conn`. -/
def reset_entry (E : Engine σ) (name : String) (pose : Pose) (w : World σ) :
    Outcome σ Unit :=
  match w.car_conn.find name with
  | none => reset_entry_body E name pose w
  | some none => .nullDeref w
  | some (some car) =>
    reset_entry_body E name pose (w.call (.car_set_pose car pose) (E.car_set_pose car pose))

/-- The `for` loop of `reset`: `todo` iterations starting at index `i`. -/
def reset_loop (E : Engine σ) (req : ResetRequest) : Nat → Nat → World σ → Outcome σ Unit
  | 0, _, w => .ret () w
  | todo + 1, i, w =>
    match req.body_names[i]?, req.init_state[i]? with
    | some name, some pose =>
      match reset_entry E name pose w with
      | .ret _ w => reset_loop E req todo (i + 1) w
      | out => out
    | _, _ => .outOfRange w

/-- The handler `SrvResponder::reset`. On a length mismatch it returns `false`
straight after the lock; the `ROS_INFO` line writes to the log only and is left
out. -/
def reset (E : Engine σ) (now : Nat) (req : ResetRequest) (res : BodyStateArray)
    (w : World σ) : Outcome σ (Bool × BodyStateArray) :=
  let w := w.mjdata_lock
  if req.body_names.length ≠ req.init_state.length then .ret (false, res) w
  else
    let w := w.call .util_reset E.util_reset
    match reset_loop E req req.body_names.length 0 w with
    | .ret _ w => respond E now res w
    | .nullDeref w => .nullDeref w
    | .outOfRange w => .outOfRange w
    | .outOfFuel w => .outOfFuel w

/-! ## Reading aids for the statements -/

/-- Every pointer of the registry is non-null, as in `main`, which registers
only connectors it has just allocated. -/
def Live (m : StdMap ConnPtr) : Prop := ∀ e ∈ m, e.2 ≠ none

instance (m : StdMap ConnPtr) : Decidable (Live m) := by
  unfold Live; infer_instance

/-- The connectors a registry points to, in iteration order. -/
def conns (m : StdMap ConnPtr) : List Nat := m.filterMap Prod.snd

/-- The record an actuated connector writes for itself. -/
def car_record (E : Engine σ) (d : MjData σ) (cc : Nat) : BodyState :=
  ⟨E.car_name cc, E.car_pose cc d⟩

/-- The record a passive connector writes for itself. -/
def body_record (E : Engine σ) (d : MjData σ) (bc : Nat) : BodyState :=
  ⟨E.body_name bc, E.body_pose bc d⟩

/-- The records of all actuated entities, then of all passive ones. -/
def all_records (E : Engine σ) (d : MjData σ) (car_conn body_conn : StdMap ConnPtr) :
    List BodyState :=
  (conns car_conn).map (car_record E d) ++ (conns body_conn).map (body_record E d)

/-- One pass through the body of the `while` loop of `step`, on `mjData`, when
`car_conn["buddy"]` is the connector `car`. -/
def sub_step (E : Engine σ) (car : Nat) (vel steering_angle : ℚ) (d : MjData σ) : MjData σ :=
  E.mj_step2 (E.apply_control car (E.mj_step1 d) vel steering_angle)

/-- The calls of one such pass, in order. -/
def sub_step_calls (car : Nat) (vel steering_angle : ℚ) : List Call :=
  [Call.mj_step1, Call.apply_control car vel steering_angle, Call.mj_step2]

/-- The `set_pose` calls one pass of the `for` loop of `reset` makes for a
name and its pose: on the car registered under the name, if any, then on the
body registered under it, if any. -/
def entry_calls (car_conn body_conn : StdMap ConnPtr) (name : String) (pose : Pose) :
    List Call :=
  (match car_conn.find name with
    | some (some car) => [Call.car_set_pose car pose]
    | _ => [])
  ++ (match body_conn.find name with
    | some (some body) => [Call.body_set_pose body pose]
    | _ => [])

/-- What those calls do to `mjData`. -/
def entry_data (E : Engine σ) (car_conn body_conn : StdMap ConnPtr) (name : String)
    (pose : Pose) (d : MjData σ) : MjData σ :=
  let d := match car_conn.find name with
    | some (some car) => E.car_set_pose car pose d
    | _ => d
  match body_conn.find name with
  | some (some body) => E.body_set_pose body pose d
  | _ => d

/-- The `set_pose` calls of a run of passes, in order. -/
def entries_calls (car_conn body_conn : StdMap ConnPtr) (l : List (String × Pose)) :
    List Call :=
  l.flatMap (fun e => entry_calls car_conn body_conn e.1 e.2)

/-- What a run of passes does to `mjData`. -/
def entries_data (E : Engine σ) (car_conn body_conn : StdMap ConnPtr)
    (l : List (String × Pose)) (d : MjData σ) : MjData σ :=
  l.foldl (fun d e => entry_data E car_conn body_conn e.1 e.2 d) d

/-- A call that sets a pose. -/
def Call.isSetPose : Call → Bool
  | .car_set_pose _ _ => true
  | .body_set_pose _ _ => true
  | _ => false

/-- What the statements about poses ask of the connectors: the pose a
connector extracts is the pose last set on it (setting a pose on one connector
leaves the pose every other connector extracts as it was), and setting a pose
does not change `d->time`. -/
structure PoseContract (E : Engine σ) : Prop where
  car_pose_set : ∀ c p d, E.car_pose c (E.car_set_pose c p d) = p
  body_pose_set : ∀ b p d, E.body_pose b (E.body_set_pose b p d) = p
  car_pose_other : ∀ c c' p d, c ≠ c' → E.car_pose c (E.car_set_pose c' p d) = E.car_pose c d
  body_pose_other : ∀ b b' p d, b ≠ b' →
    E.body_pose b (E.body_set_pose b' p d) = E.body_pose b d
  car_pose_body : ∀ c b p d, E.car_pose c (E.body_set_pose b p d) = E.car_pose c d
  body_pose_car : ∀ b c p d, E.body_pose b (E.car_set_pose c p d) = E.body_pose b d
  car_set_time : ∀ c p d, (E.car_set_pose c p d).time = d.time
  body_set_time : ∀ b p d, (E.body_set_pose b p d).time = d.time

/-- Every record is named by the key its connector is registered under, as in
`main`, which registers each connector under its own `body_name()`. -/
def KeyNamed (name : Nat → String) (m : StdMap ConnPtr) : Prop :=
  ∀ e ∈ m, ∀ c, e.2 = some c → name c = e.1

/-! ## A small engine to evaluate the handlers on

The rest of `mjData` is a pose per car connector and a pose per body connector;
a physics sub-step only advances time, by 1/128; the engine reset puts time
back to 0. -/

/-- The poses of the toy engine. -/
structure ToyStore where
  cars : Nat → Pose
  bodies : Nat → Pose

/-- A toy engine. -/
def toyEngine : Engine ToyStore where
  mj_step1 := fun d => d
  mj_step2 := fun d => { d with time := d.time + 1 / 128 }
  util_reset := fun d => { d with time := 0 }
  apply_control := fun _ d _ _ => d
  car_name := fun c => if c = 0 then "buddy" else if c = 1 then "car1" else "car"
  car_pose := fun c d => d.rest.cars c
  car_set_pose := fun c p d =>
    { d with rest := { d.rest with cars := Function.update d.rest.cars c p } }
  body_name := fun b => if b = 10 then "block" else "body"
  body_pose := fun b d => d.rest.bodies b
  body_set_pose := fun b p d =>
    { d with rest := { d.rest with bodies := Function.update d.rest.bodies b p } }

/-- A pose at `(x, 0, 0)` with the identity orientation. -/
def poseAt (x : ℚ) : Pose := ⟨⟨x, 0, 0⟩, ⟨0, 0, 0, 1⟩⟩

/-- A world at time 5 with the cars `buddy` and `car1` and the body `block`. -/
def toyWorld : World ToyStore where
  d := ⟨5, ⟨fun _ => poseAt 0, fun _ => poseAt 0⟩⟩
  paused := false
  held := 0
  car_conn := [("buddy", some 0), ("car1", some 1)]
  body_conn := [("block", some 10)]
  calls := []

/-- The same world with `car1` as its only car: no entry is named `buddy`. -/
def toyWorldNoBuddy : World ToyStore := { toyWorld with car_conn := [("car1", some 1)] }

/-- An empty response message. -/
def emptyRes : BodyStateArray := ⟨0, 0, []⟩

/-- The toy engine with the double nearest 1/120 as its time step. -/
def boundaryEngine : Engine ToyStore :=
  { toyEngine with
    mj_step2 := fun d => { d with time := d.time + 4803839602528529 / 2 ^ 59 } }

/-- The toy engine adding the double nearest 1/120 to the time in binary64. -/
def absorbEngine : Engine ToyStore :=
  { toyEngine with
    mj_step2 := fun d =>
      match round64 (d.time + 4803839602528529 / 2 ^ 59) with
      | .fin t => { d with time := t }
      | .inf _ => d }

/-- The toy world at time `1e17`, where that sum rounds back to `1e17`. -/
def absorbWorld : World ToyStore :=
  { toyWorld with d := ⟨100000000000000000, ⟨fun _ => poseAt 0, fun _ => poseAt 0⟩⟩ }

/-- The toy world at time 0. From there two steps of `boundaryEngine` reach
`4803839602528529 / 2 ^ 59` and `4803839602528529 / 2 ^ 58`, both binary64 values,
so no sum is rounded. -/
def boundaryWorld : World ToyStore :=
  { toyWorld with d := ⟨0, ⟨fun _ => poseAt 0, fun _ => poseAt 0⟩⟩ }

/-! ## The binary64 loop test -/

theorem roundEven_ge_floor (x : ℚ) : ⌊x⌋ ≤ roundEven x := by
  unfold roundEven
  split_ifs <;> omega

theorem roundEven_le (x : ℚ) : (roundEven x : ℚ) ≤ x + 1 / 2 := by
  unfold roundEven
  have h1 : (⌊x⌋ : ℚ) ≤ x := Int.floor_le x
  split_ifs with h₁ h₂ h₃
  · linarith
  · push_cast; linarith
  · linarith
  · push_cast; linarith

theorem roundEven_ge (x : ℚ) : x - 1 / 2 ≤ (roundEven x : ℚ) := by
  unfold roundEven
  have h1 : x < (⌊x⌋ : ℚ) + 1 := Int.lt_floor_add_one x
  split_ifs with h₁ h₂ h₃
  · linarith
  · push_cast; linarith
  · linarith
  · push_cast; linarith

theorem int_log_eq {x : ℚ} {k : ℤ} (h₁ : (2 : ℚ) ^ k ≤ x) (h₂ : x < (2 : ℚ) ^ (k + 1)) :
    Int.log 2 x = k := by
  have hx : 0 < x := lt_of_lt_of_le (by positivity) h₁
  have a : k ≤ Int.log 2 x := (Int.zpow_le_iff_le_log (by norm_num) hx).mp (by exact_mod_cast h₁)
  have b : Int.log 2 x < k + 1 := (Int.lt_zpow_iff_log_lt (by norm_num) hx).mp (by exact_mod_cast h₂)
  omega

theorem step_budget_eq : step_budget = Double.fin (4803839602528529 / 2 ^ 58) := by
  have hlog : Int.log 2 |(1 / 60 : ℚ)| = -6 := by
    apply int_log_eq <;> norm_num [abs_of_pos]
  have hulp : ulpExp (1 / 60) = -58 := by
    simp only [ulpExp, hlog]; norm_num
  have hfloor : ⌊(1 / 60 : ℚ) / 2 ^ (-58 : ℤ)⌋ = 4803839602528529 := by
    rw [Int.floor_eq_iff]; norm_num
  have hround : roundEven ((1 / 60 : ℚ) / 2 ^ (-58 : ℤ)) = 4803839602528529 := by
    simp only [roundEven, hfloor]
    norm_num
  simp only [step_budget, maxrate, round64, hulp, hround]
  norm_num [abs_of_pos]


theorem loop_test_self (t : ℚ) : loop_test t t = true := by
  simp [loop_test, double_sub, round64, step_budget_eq, double_lt]

theorem round64_not_lt_budget {x : ℚ} (h : 4803839602528529 / 2 ^ 58 ≤ x) :
    double_lt (round64 x) step_budget = false := by
  have hx : 0 < x := lt_of_lt_of_le (by norm_num) h
  have hlog : -6 ≤ Int.log 2 |x| := by
    apply (Int.zpow_le_iff_le_log (by norm_num) (abs_pos.mpr hx.ne')).mp
    rw [abs_of_pos hx]
    refine le_trans ?_ h
    norm_num
  have key : (4803839602528529 / 2 ^ 58 : ℚ)
      ≤ (roundEven (x / 2 ^ ulpExp x) : ℚ) * 2 ^ ulpExp x := by
    by_cases hc : Int.log 2 |x| = -6
    · have he : ulpExp x = -58 := by simp only [ulpExp, hc]; norm_num
      rw [he]
      have hz : ((4803839602528529 : ℤ) : ℚ) ≤ x / 2 ^ (-58 : ℤ) := by
        rw [le_div_iff₀ (by positivity)]
        refine le_trans ?_ h
        norm_num
      have hr : (4803839602528529 : ℤ) ≤ roundEven (x / 2 ^ (-58 : ℤ)) :=
        le_trans (Int.le_floor.mpr hz) (roundEven_ge_floor _)
      have hr' : ((4803839602528529 : ℤ) : ℚ) ≤ (roundEven (x / 2 ^ (-58 : ℤ)) : ℚ) := by
        exact_mod_cast hr
      have : (0 : ℚ) < 2 ^ (-58 : ℤ) := by positivity
      calc (4803839602528529 / 2 ^ 58 : ℚ)
          = ((4803839602528529 : ℤ) : ℚ) * 2 ^ (-58 : ℤ) := by norm_num
        _ ≤ (roundEven (x / 2 ^ (-58 : ℤ)) : ℚ) * 2 ^ (-58 : ℤ) :=
          mul_le_mul_of_nonneg_right hr' this.le
    · have hl : -5 ≤ Int.log 2 |x| := by omega
      have he : ulpExp x = Int.log 2 |x| - 52 := by
        simp only [ulpExp]; omega
      rw [he]
      have hpow : (2 : ℚ) ^ Int.log 2 |x| ≤ x := by
        have h1 : (2 : ℚ) ^ Int.log 2 |x| ≤ |x| := by
          exact_mod_cast Int.zpow_log_le_self (b := 2) (r := |x|) (by norm_num)
            (abs_pos.mpr hx.ne')
        exact le_trans h1 (le_of_eq (abs_of_pos hx))
      have hsplit : (2 : ℚ) ^ Int.log 2 |x|
          = 4503599627370496 * 2 ^ (Int.log 2 |x| - 52) := by
        have : (2 : ℚ) ^ Int.log 2 |x| = 2 ^ (52 : ℤ) * 2 ^ (Int.log 2 |x| - 52) := by
          rw [← zpow_add₀ (by norm_num)]
          congr 1
          ring
        rw [this]
        norm_num
      have hpos : (0 : ℚ) < 2 ^ (Int.log 2 |x| - 52) := by positivity
      have hz : (((2 : ℤ) ^ 52 : ℤ) : ℚ) ≤ x / 2 ^ (Int.log 2 |x| - 52) := by
        rw [le_div_iff₀ hpos]
        refine le_trans (le_of_eq ?_) hpow
        push_cast
        rw [hsplit]
      have hr : ((2 : ℤ) ^ 52 : ℤ) ≤ roundEven (x / 2 ^ (Int.log 2 |x| - 52)) :=
        le_trans (Int.le_floor.mpr hz) (roundEven_ge_floor _)
      have hr' : (((2 : ℤ) ^ 52 : ℤ) : ℚ) ≤ (roundEven (x / 2 ^ (Int.log 2 |x| - 52)) : ℚ) := by
        exact_mod_cast hr
      have h5 : (2 : ℚ) ^ (-5 : ℤ) ≤ 2 ^ Int.log 2 |x| :=
        zpow_le_zpow_right₀ (by norm_num) hl
      calc (4803839602528529 / 2 ^ 58 : ℚ) ≤ 2 ^ (-5 : ℤ) := by norm_num
        _ ≤ 2 ^ Int.log 2 |x| := h5
        _ = (((2 : ℤ) ^ 52 : ℤ) : ℚ) * 2 ^ (Int.log 2 |x| - 52) := by
          push_cast
          rw [hsplit]
        _ ≤ (roundEven (x / 2 ^ (Int.log 2 |x| - 52)) : ℚ) * 2 ^ (Int.log 2 |x| - 52) :=
          mul_le_mul_of_nonneg_right hr' hpos.le
  rw [step_budget_eq]
  unfold round64
  rw [if_neg hx.ne']
  split_ifs
  · simp [double_lt, not_lt.mpr hx.le]
  · simp only [double_lt, decide_eq_false_iff_not, not_lt]
    exact key

theorem round64_lt_budget {x : ℚ} (h : x < 9607679205057057 / 2 ^ 59) :
    double_lt (round64 x) step_budget = true := by
  rw [step_budget_eq]
  unfold round64
  by_cases h0 : x = 0
  · rw [if_pos h0]
    simp [double_lt]
  rw [if_neg h0]
  have hpe : (0 : ℚ) < 2 ^ ulpExp x := by positivity
  have hup := roundEven_le (x / 2 ^ ulpExp x)
  have hlo := roundEven_ge (x / 2 ^ ulpExp x)
  rcases lt_or_gt_of_ne h0 with hneg | hpos
  · have hz : x / 2 ^ ulpExp x < 0 := div_neg_of_neg_of_pos hneg hpe
    have hr : roundEven (x / 2 ^ ulpExp x) ≤ 0 := by
      have : (roundEven (x / 2 ^ ulpExp x) : ℚ) < 1 := by linarith
      have : roundEven (x / 2 ^ ulpExp x) < 1 := by exact_mod_cast this
      omega
    have hy : (roundEven (x / 2 ^ ulpExp x) : ℚ) * 2 ^ ulpExp x ≤ 0 :=
      mul_nonpos_of_nonpos_of_nonneg (by exact_mod_cast hr) hpe.le
    split_ifs
    · simp [double_lt, hneg]
    · simp only [double_lt, decide_eq_true_eq]
      refine lt_of_le_of_lt hy ?_
      norm_num
  · have hlog : Int.log 2 |x| < -5 := by
      apply (Int.lt_zpow_iff_log_lt (by norm_num) (abs_pos.mpr h0)).mp
      rw [abs_of_pos hpos]
      refine lt_trans h ?_
      norm_num
    have he : ulpExp x ≤ -58 := by
      simp only [ulpExp]; omega
    have hP : (1 : ℚ) ≤ 2 ^ (-58 - ulpExp x) :=
      one_le_zpow₀ (by norm_num) (by omega)
    have hsplit : (2 : ℚ) ^ (-58 : ℤ) = 2 ^ (-58 - ulpExp x) * 2 ^ ulpExp x := by
      rw [← zpow_add₀ (by norm_num)]
      congr 1
      omega
    have hz : x / 2 ^ ulpExp x < (4803839602528529 - 1 / 2) * 2 ^ (-58 - ulpExp x) := by
      rw [div_lt_iff₀ hpe, mul_assoc, ← hsplit]
      refine lt_of_lt_of_le h (le_of_eq ?_)
      norm_num
    have hr : (roundEven (x / 2 ^ ulpExp x) : ℚ) < 4803839602528529 * 2 ^ (-58 - ulpExp x) := by
      nlinarith
    have hy : (roundEven (x / 2 ^ ulpExp x) : ℚ) * 2 ^ ulpExp x < 4803839602528529 / 2 ^ 58 := by
      have := mul_lt_mul_of_pos_right hr hpe
      rw [mul_assoc, ← hsplit] at this
      refine lt_of_lt_of_le this (le_of_eq ?_)
      norm_num
    have hz0 : 0 < x / 2 ^ ulpExp x := div_pos hpos hpe
    have hr0 : 0 ≤ roundEven (x / 2 ^ ulpExp x) := by
      have : (-1 : ℚ) < (roundEven (x / 2 ^ ulpExp x) : ℚ) := by linarith
      have : -1 < roundEven (x / 2 ^ ulpExp x) := by exact_mod_cast this
      omega
    have hy0 : 0 ≤ (roundEven (x / 2 ^ ulpExp x) : ℚ) * 2 ^ ulpExp x :=
      mul_nonneg (by exact_mod_cast hr0) hpe.le
    rw [if_neg]
    · simp only [double_lt, decide_eq_true_eq]
      exact hy
    · rw [abs_of_nonneg hy0, not_le]
      refine lt_trans hy ?_
      norm_num

/-! ## Registries -/

theorem live_tail {e : String × ConnPtr} {m : StdMap ConnPtr} (h : Live (e :: m)) : Live m :=
  fun x hx => h x (List.mem_cons_of_mem e hx)

theorem conns_length {m : StdMap ConnPtr} (h : Live m) : (conns m).length = m.length := by
  induction m with
  | nil => rfl
  | cons e m ih =>
    obtain ⟨k, p⟩ := e
    cases p with
    | none => exact absurd rfl (h (k, none) (List.mem_cons_self _ _))
    | some c => simp [conns] at ih ⊢; exact ih (live_tail h)

theorem conns_pointers {m : StdMap ConnPtr} (h : Live m) :
    m.map Prod.snd = (conns m).map some := by
  induction m with
  | nil => rfl
  | cons e m ih =>
    obtain ⟨k, p⟩ := e
    cases p with
    | none => exact absurd rfl (h (k, none) (List.mem_cons_self _ _))
    | some c => simp [conns] at ih ⊢; exact ih (live_tail h)

theorem find_mem {V : Type} {m : StdMap V} {k : String} {v : V} (h : m.find k = some v) :
    (k, v) ∈ m := by
  induction m with
  | nil => simp [StdMap.find] at h
  | cons e m ih =>
    obtain ⟨k', v'⟩ := e
    by_cases hk : k' = k
    · simp [StdMap.find, hk] at h
      simp [hk, h]
    · simp [StdMap.find, hk] at h
      exact List.mem_cons_of_mem _ (ih h)

theorem find_eq_none {V : Type} {m : StdMap V} {k : String} :
    m.find k = none ↔ k ∉ m.keys := by
  induction m with
  | nil => simp [StdMap.find, StdMap.keys]
  | cons e m ih =>
    obtain ⟨k', v'⟩ := e
    by_cases hk : k' = k
    · simp [StdMap.find, StdMap.keys, hk]
    · have hk' : ¬ k = k' := fun h => hk h.symm
      simp only [StdMap.find, hk, if_false, ih]
      simp [StdMap.keys, hk']

theorem find_live {m : StdMap ConnPtr} (h : Live m) {k : String} :
    m.find k ≠ some none :=
  fun hf => h _ (find_mem hf) rfl

theorem find_conns {m : StdMap ConnPtr} {k : String} {c : Nat}
    (h : m.find k = some (some c)) : c ∈ conns m := by
  have := find_mem h
  simp only [conns, List.mem_filterMap]
  exact ⟨_, this, rfl⟩

/-! ## The snapshot -/

theorem push_car_states_live (E : Engine σ) (d : MjData σ) {m : StdMap ConnPtr}
    (h : Live m) (states : List BodyState) :
    push_car_states E d m states = some (states ++ (conns m).map (car_record E d)) := by
  induction m generalizing states with
  | nil => simp [push_car_states, conns]
  | cons e m ih =>
    obtain ⟨k, p⟩ := e
    cases p with
    | none => exact absurd rfl (h (k, none) (List.mem_cons_self _ _))
    | some c =>
      rw [push_car_states, ih (live_tail h)]
      simp [conns, car_record]

theorem push_body_states_live (E : Engine σ) (d : MjData σ) {m : StdMap ConnPtr}
    (h : Live m) (states : List BodyState) :
    push_body_states E d m states = some (states ++ (conns m).map (body_record E d)) := by
  induction m generalizing states with
  | nil => simp [push_body_states, conns]
  | cons e m ih =>
    obtain ⟨k, p⟩ := e
    cases p with
    | none => exact absurd rfl (h (k, none) (List.mem_cons_self _ _))
    | some c =>
      rw [push_body_states, ih (live_tail h)]
      simp [conns, body_record]

theorem set_body_state_live (E : Engine σ) (now : Nat) (d : MjData σ)
    {car_conn body_conn : StdMap ConnPtr} (hc : Live car_conn) (hb : Live body_conn)
    (body_state : BodyStateArray) :
    set_body_state E now d car_conn body_conn body_state
      = some ⟨d.time, now, body_state.states ++ all_records E d car_conn body_conn⟩ := by
  simp [set_body_state, push_car_states_live E d hc, push_body_states_live E d hb,
    all_records]

theorem respond_live (E : Engine σ) (now : Nat) (res : BodyStateArray) (w : World σ)
    (hc : Live w.car_conn) (hb : Live w.body_conn) :
    respond E now res w
      = .ret (true, ⟨w.d.time, now, res.states ++ all_records E w.d w.car_conn w.body_conn⟩)
          w.mjdata_unlock := by
  simp [respond, set_body_state_live E now w.d hc hb]

theorem get_state_live (E : Engine σ) (now : Nat) (res : BodyStateArray) (w : World σ)
    (hc : Live w.car_conn) (hb : Live w.body_conn) :
    get_state E now res w
      = .ret (true, ⟨w.d.time, now, res.states ++ all_records E w.d w.car_conn w.body_conn⟩)
          { w with calls := w.calls ++ [Call.mjdata_lock, Call.mjdata_unlock] } := by
  have h := respond_live E now res w.mjdata_lock hc hb
  simp only [get_state, h]
  simp [World.mjdata_lock, World.mjdata_unlock]

/-- C7. Called with an empty response on registries of non-null pointers,
`set_body_state` returns a snapshot whose `simtime` is `d.time` and whose
`states` are the records of the connectors of `car_conn` in iteration order
followed by those of `body_conn` in iteration order, one per entry: the
connectors are exactly the pointers of the entries, and the length is
`|car_conn| + |body_conn|`. -/
theorem set_body_state_snapshot (E : Engine σ) (now : Nat) (d : MjData σ)
    (car_conn body_conn : StdMap ConnPtr) (simtime₀ : ℚ) (stamp₀ : Nat)
    (hc : Live car_conn) (hb : Live body_conn) :
    ∃ snap, set_body_state E now d car_conn body_conn ⟨simtime₀, stamp₀, []⟩ = some snap
      ∧ snap.simtime = d.time
      ∧ snap.states
          = (conns car_conn).map (car_record E d) ++ (conns body_conn).map (body_record E d)
      ∧ car_conn.map Prod.snd = (conns car_conn).map some
      ∧ body_conn.map Prod.snd = (conns body_conn).map some
      ∧ snap.states.length = car_conn.length + body_conn.length
      ∧ snap.states.take car_conn.length = (conns car_conn).map (car_record E d)
      ∧ snap.states.drop car_conn.length = (conns body_conn).map (body_record E d) := by
  refine ⟨_, set_body_state_live E now d hc hb _, rfl, ?_, conns_pointers hc,
    conns_pointers hb, ?_, ?_, ?_⟩
  · simp [all_records]
  · simp [all_records, conns_length hc, conns_length hb]
  · simp [all_records, ← conns_length hc]
  · simp [all_records, ← conns_length hc]

/-- Witness of C7 on the toy world: `buddy`, `car1`, then `block`. -/
theorem set_body_state_snapshot_witness :
    ∃ snap, set_body_state toyEngine 7 toyWorld.d toyWorld.car_conn toyWorld.body_conn
        ⟨0, 0, []⟩ = some snap
      ∧ snap.simtime = toyWorld.d.time
      ∧ snap.states
          = (conns toyWorld.car_conn).map (car_record toyEngine toyWorld.d)
            ++ (conns toyWorld.body_conn).map (body_record toyEngine toyWorld.d)
      ∧ toyWorld.car_conn.map Prod.snd = (conns toyWorld.car_conn).map some
      ∧ toyWorld.body_conn.map Prod.snd = (conns toyWorld.body_conn).map some
      ∧ snap.states.length = toyWorld.car_conn.length + toyWorld.body_conn.length
      ∧ snap.states.take toyWorld.car_conn.length
          = (conns toyWorld.car_conn).map (car_record toyEngine toyWorld.d)
      ∧ snap.states.drop toyWorld.car_conn.length
          = (conns toyWorld.body_conn).map (body_record toyEngine toyWorld.d) :=
  set_body_state_snapshot toyEngine 7 toyWorld.d toyWorld.car_conn toyWorld.body_conn 0 0
    (by decide) (by decide)

/-- C8. Two consecutive `get_state` calls, each into a fresh response, on
registries of non-null pointers: both return `true`, the two snapshots have the
same `simtime` and the same `states`, their stamps are the two clock readings,
and `mjData` is the same after each call as before the first. -/
theorem get_state_twice (E : Engine σ) (now₁ now₂ : Nat) (res₁ res₂ : BodyStateArray)
    (w : World σ) (hc : Live w.car_conn) (hb : Live w.body_conn)
    (h₁ : res₁.states = []) (h₂ : res₂.states = []) :
    ∃ r₁ w₁ r₂ w₂, get_state E now₁ res₁ w = .ret (true, r₁) w₁
      ∧ get_state E now₂ res₂ w₁ = .ret (true, r₂) w₂
      ∧ r₁.simtime = r₂.simtime ∧ r₁.states = r₂.states
      ∧ r₁.stamp = now₁ ∧ r₂.stamp = now₂
      ∧ w₁.d = w.d ∧ w₂.d = w.d := by
  refine ⟨_, _, _, _, get_state_live E now₁ res₁ w hc hb,
    get_state_live E now₂ res₂ _ hc hb, rfl, ?_, rfl, rfl, rfl, rfl⟩
  simp [h₁, h₂]

/-- Witness of C8 on the toy world, with clock readings 3 and 4. -/
theorem get_state_twice_witness :
    ∃ r₁ w₁ r₂ w₂, get_state toyEngine 3 emptyRes toyWorld = .ret (true, r₁) w₁
      ∧ get_state toyEngine 4 emptyRes w₁ = .ret (true, r₂) w₂
      ∧ r₁.simtime = r₂.simtime ∧ r₁.states = r₂.states
      ∧ r₁.stamp = 3 ∧ r₂.stamp = 4
      ∧ w₁.d = toyWorld.d ∧ w₂.d = toyWorld.d :=
  get_state_twice toyEngine 3 4 emptyRes emptyRes toyWorld (by decide) (by decide) rfl rfl

/-! ## The stepping loop -/

theorem subscript_found {m : StdMap ConnPtr} {k : String} {p : ConnPtr}
    (h : m.find k = some p) : m.subscript k = (p, m) := by
  simp [StdMap.subscript, h]

theorem subscript_absent {m : StdMap ConnPtr} {k : String}
    (h : m.find k = none) : m.subscript k = (none, m.insertSorted k none) := by
  simp [StdMap.subscript, h]

theorem keys_insertSorted {V : Type} (k : String) (v : V) (m : StdMap V) :
    (m.insertSorted k v).keys.length = m.keys.length + 1 := by
  induction m with
  | nil => rfl
  | cons e m ih =>
    obtain ⟨k', v'⟩ := e
    by_cases hk : k < k'
    · simp [StdMap.insertSorted, hk, StdMap.keys]
    · simp [StdMap.insertSorted, hk, StdMap.keys] at ih ⊢
      exact ih

theorem step_loop_run (E : Engine σ) (vel steering_angle simstart : ℚ) (car : Nat) :
    ∀ (n : Nat) (w : World σ), w.car_conn.find "buddy" = some (some car) →
      (∀ k, k < n →
        loop_test ((sub_step E car vel steering_angle)^[k] w.d).time simstart = true) →
      loop_test ((sub_step E car vel steering_angle)^[n] w.d).time simstart = false →
      ∀ fuel, n ≤ fuel →
        step_loop E vel steering_angle simstart fuel w
          = .ret () { w with
              d := (sub_step E car vel steering_angle)^[n] w.d
              calls := w.calls
                ++ (List.replicate n (sub_step_calls car vel steering_angle)).flatten } := by
  intro n
  induction n with
  | zero =>
    intro w _ _ hstop fuel _
    simp only [Function.iterate_zero, id_eq] at hstop
    cases fuel <;> simp [step_loop, hstop]
  | succ n ih =>
    intro w hbuddy hrun hstop fuel hfuel
    obtain ⟨fuel, rfl⟩ : ∃ f, fuel = f + 1 := ⟨fuel - 1, by omega⟩
    have h0 : loop_test w.d.time simstart = true := by simpa using hrun 0 (Nat.succ_pos n)
    have hsub : (w.call Call.mj_step1 E.mj_step1).car_conn.subscript "buddy"
        = (some car, w.car_conn) := subscript_found hbuddy
    simp only [step_loop, h0, if_true, hsub]
    refine (ih _ ?_ ?_ ?_ fuel (by omega)).trans ?_
    · exact hbuddy
    · intro k hk
      simpa [World.call, sub_step] using hrun (k + 1) (by omega)
    · simpa [World.call, sub_step] using hstop
    · simp [World.call, sub_step, sub_step_calls, List.replicate_succ]

theorem step_running (E : Engine σ) (fuel now : Nat) (req : StepRequest)
    (res : BodyStateArray) (w : World σ) (car n : Nat)
    (hc : Live w.car_conn) (hb : Live w.body_conn) (hp : w.paused = false)
    (hbuddy : w.car_conn.find "buddy" = some (some car))
    (hrun : ∀ k, k < n →
      loop_test ((sub_step E car req.speed req.steering_angle)^[k] w.d).time w.d.time = true)
    (hstop :
      loop_test ((sub_step E car req.speed req.steering_angle)^[n] w.d).time w.d.time = false)
    (hfuel : n ≤ fuel) :
    step E fuel now req res w
      = .ret (true, ⟨((sub_step E car req.speed req.steering_angle)^[n] w.d).time, now,
            res.states ++ all_records E ((sub_step E car req.speed req.steering_angle)^[n] w.d)
              w.car_conn w.body_conn⟩)
          { w with
            d := (sub_step E car req.speed req.steering_angle)^[n] w.d
            calls := w.calls ++ [Call.mjdata_lock]
              ++ (List.replicate n
                    (sub_step_calls car req.speed req.steering_angle)).flatten
              ++ [Call.mjdata_unlock] } := by
  have hl := step_loop_run E req.speed req.steering_angle w.d.time car n w.mjdata_lock
    hbuddy hrun hstop fuel hfuel
  simp only [step]
  simp only [World.mjdata_lock, hp] at hl ⊢
  simp only [Bool.not_false, if_true, hl]
  refine (respond_live E now res _ ?_ ?_).trans ?_
  · exact hc
  · exact hb
  · simp [World.mjdata_unlock]

theorem step_without_buddy (E : Engine σ) (fuel now : Nat) (req : StepRequest)
    (res : BodyStateArray) (w : World σ) (hp : w.paused = false)
    (hbuddy : w.car_conn.find "buddy" = none) :
    step E (fuel + 1) now req res w
      = .nullDeref { w with
          d := E.mj_step1 w.d
          held := w.held + 1
          car_conn := w.car_conn.insertSorted "buddy" none
          calls := w.calls ++ [Call.mjdata_lock, Call.mj_step1] } := by
  have hsub : w.car_conn.subscript "buddy" = (none, w.car_conn.insertSorted "buddy" none) :=
    subscript_absent hbuddy
  simp [step, step_loop, World.mjdata_lock, World.call, hp, hsub, loop_test_self]

/-- The toy run at the boundary: from time 0 with the double nearest 1/120 as
time step, the loop of `step` makes two passes and stops at the double nearest
1/60. -/
theorem boundary_step :
    step boundaryEngine 10 0 ⟨1, 0⟩ emptyRes boundaryWorld
      = .ret (true, ⟨4803839602528529 / 2 ^ 58, 0,
            all_records boundaryEngine ⟨4803839602528529 / 2 ^ 58, boundaryWorld.d.rest⟩
              boundaryWorld.car_conn boundaryWorld.body_conn⟩)
          { boundaryWorld with
            d := ⟨4803839602528529 / 2 ^ 58, boundaryWorld.d.rest⟩
            calls := [Call.mjdata_lock,
              Call.mj_step1, Call.apply_control 0 1 0, Call.mj_step2,
              Call.mj_step1, Call.apply_control 0 1 0, Call.mj_step2,
              Call.mjdata_unlock] } := by
  have h := step_running boundaryEngine 10 0 ⟨1, 0⟩ emptyRes boundaryWorld 0 2
    (by decide) (by decide) rfl (by decide)
    (by
      intro k hk
      interval_cases k
      · exact loop_test_self _
      · simp only [Function.iterate_succ, Function.iterate_zero, Function.comp_apply, id_eq,
          sub_step, boundaryEngine, toyEngine, boundaryWorld, loop_test, double_sub]
        exact round64_lt_budget (by norm_num))
    (by
      simp only [Function.iterate_succ, Function.iterate_zero, Function.comp_apply, id_eq,
        sub_step, boundaryEngine, toyEngine, boundaryWorld, loop_test, double_sub]
      exact round64_not_lt_budget (by norm_num))
    (by decide)
  rw [h]
  simp only [Function.iterate_succ, Function.iterate_zero, Function.comp_apply, id_eq,
    sub_step, boundaryEngine, toyEngine, boundaryWorld, toyWorld, emptyRes, sub_step_calls]
  norm_num [List.replicate]

theorem round64_absorb :
    round64 (100000000000000000 + 4803839602528529 / 2 ^ 59) = Double.fin 100000000000000000 := by
  have hlog : Int.log 2 |(100000000000000000 + 4803839602528529 / 2 ^ 59 : ℚ)| = 56 := by
    apply int_log_eq <;> norm_num [abs_of_pos]
  have hulp : ulpExp (100000000000000000 + 4803839602528529 / 2 ^ 59) = 4 := by
    simp only [ulpExp, hlog]; norm_num
  have hfloor : ⌊(100000000000000000 + 4803839602528529 / 2 ^ 59 : ℚ) / 2 ^ (4 : ℤ)⌋
      = 6250000000000000 := by
    rw [Int.floor_eq_iff]; norm_num
  have hround : roundEven ((100000000000000000 + 4803839602528529 / 2 ^ 59 : ℚ) / 2 ^ (4 : ℤ))
      = 6250000000000000 := by
    simp only [roundEven, hfloor]
    norm_num
  simp only [round64, hulp, hround]
  norm_num [abs_of_pos]

theorem step_loop_stuck (E : Engine σ) (vel steering_angle simstart t : ℚ) (car : Nat)
    (hfix : ∀ d, d.time = t → (sub_step E car vel steering_angle d).time = t)
    (htest : loop_test t simstart = true) :
    ∀ (fuel : Nat) (w : World σ), w.car_conn.find "buddy" = some (some car) → w.d.time = t →
      ∃ w', step_loop E vel steering_angle simstart fuel w = .outOfFuel w' := by
  intro fuel
  induction fuel with
  | zero =>
    intro w _ ht
    exact ⟨w, by simp [step_loop, ht, htest]⟩
  | succ fuel ih =>
    intro w hbuddy ht
    have hsub : (w.call Call.mj_step1 E.mj_step1).car_conn.subscript "buddy"
        = (some car, w.car_conn) := subscript_found hbuddy
    simp only [step_loop, ht, htest, if_true, hsub]
    refine ih _ ?_ ?_
    · exact hbuddy
    · exact hfix w.d ht

/-- Where the double addition absorbs the time step (time `1e17`, step the
double nearest 1/120) the loop of `step` never ends: every loop bound is
reached. -/
theorem absorbed_step_never_returns :
    ∀ fuel, ∃ w', step absorbEngine fuel 0 ⟨1, 0⟩ emptyRes absorbWorld = .outOfFuel w' := by
  intro fuel
  have hfix : ∀ d : MjData ToyStore, d.time = 100000000000000000 →
      (sub_step absorbEngine 0 1 0 d).time = 100000000000000000 := by
    intro d hd
    simp only [sub_step, absorbEngine, toyEngine, hd, round64_absorb]
  obtain ⟨w', h⟩ := step_loop_stuck absorbEngine 1 0 100000000000000000 100000000000000000 0
    hfix (loop_test_self _) fuel absorbWorld.mjdata_lock (by decide) rfl
  refine ⟨w', ?_⟩
  have hp : absorbWorld.mjdata_lock.paused = false := rfl
  have ht : absorbWorld.mjdata_lock.d.time = 100000000000000000 := rfl
  simp only [step, hp, ht, Bool.not_false, if_true, h]

/-- C10, amended. A `step` call made while not paused, with `car_conn["buddy"]`
the connector `car` and registries of non-null pointers. The loop runs exactly
while its binary64 test holds, `loop_test`: the double difference
`d->time - simstart` is less than the double `1.0 / maxrate`, which is
`4803839602528529 / 2 ^ 58`. If the test holds before each of the first `n`
passes and fails after the `n`-th, then (for any loop bound `fuel ≥ n`) the
handler returns `true` after exactly `n` passes: `mjData` is the `n`-fold
`sub_step`, and the calls made are the lock, then `n` times `mj_step1`,
`apply_control` on `car` with the request's speed and steering angle,
`mj_step2`, then the unlock. So every `apply_control` call is on `car` and sits
between the two half-steps of its pass. -/
theorem step_sub_step_order (E : Engine σ) (fuel now : Nat) (req : StepRequest)
    (res : BodyStateArray) (w : World σ) (car n : Nat)
    (hc : Live w.car_conn) (hb : Live w.body_conn) (hp : w.paused = false)
    (hbuddy : w.car_conn.find "buddy" = some (some car))
    (hrun : ∀ k, k < n →
      loop_test ((sub_step E car req.speed req.steering_angle)^[k] w.d).time w.d.time = true)
    (hstop :
      loop_test ((sub_step E car req.speed req.steering_angle)^[n] w.d).time w.d.time = false)
    (hfuel : n ≤ fuel) :
    ∃ r w', step E fuel now req res w = .ret (true, r) w'
      ∧ w'.d = (fun d => E.mj_step2
                  (E.apply_control car (E.mj_step1 d) req.speed req.steering_angle))^[n] w.d
      ∧ w'.calls = w.calls ++ [Call.mjdata_lock]
          ++ (List.replicate n [Call.mj_step1,
                Call.apply_control car req.speed req.steering_angle, Call.mj_step2]).flatten
          ++ [Call.mjdata_unlock]
      ∧ (∀ c v a, Call.apply_control c v a ∈ w'.calls.drop w.calls.length →
          c = car ∧ v = req.speed ∧ a = req.steering_angle)
      ∧ (w'.calls.drop w.calls.length).count
          (Call.apply_control car req.speed req.steering_angle) = n
      ∧ w'.car_conn = w.car_conn ∧ w'.body_conn = w.body_conn ∧ w'.held = w.held
      ∧ step_budget = Double.fin (4803839602528529 / 2 ^ 58) := by
  refine ⟨_, _, step_running E fuel now req res w car n hc hb hp hbuddy hrun hstop hfuel,
    rfl, rfl, ?_, ?_, rfl, rfl, rfl, step_budget_eq⟩
  · intro c v a hmem
    simp only [List.append_assoc, List.drop_left, sub_step_calls] at hmem
    simp only [List.mem_append, List.mem_cons, List.mem_singleton, List.mem_flatten,
      List.mem_replicate, List.not_mem_nil, or_false] at hmem
    rcases hmem with h | ⟨l, ⟨_, rfl⟩, h⟩ | h
    · exact absurd h (by simp)
    · simp only [List.mem_cons, List.mem_singleton, List.not_mem_nil, or_false] at h
      rcases h with h | h | h
      · exact absurd h (by simp)
      · injection h with h1 h2 h3
        exact ⟨h1, h2, h3⟩
      · exact absurd h (by simp)
    · exact absurd h (by simp)
  · simp only [List.append_assoc, List.drop_left, sub_step_calls]
    simp [List.count_append, List.count_cons, List.count_flatten]

/-- Witness of C10 on the toy world (time 5, time step 1/128): three passes. -/
theorem step_sub_step_order_witness :
    ∃ r w', step toyEngine 3 0 ⟨1, 0⟩ emptyRes toyWorld = .ret (true, r) w'
      ∧ w'.calls = [Call.mjdata_lock,
          Call.mj_step1, Call.apply_control 0 1 0, Call.mj_step2,
          Call.mj_step1, Call.apply_control 0 1 0, Call.mj_step2,
          Call.mj_step1, Call.apply_control 0 1 0, Call.mj_step2,
          Call.mjdata_unlock] := by
  obtain ⟨r, w', h, -, hcalls, -⟩ :=
    step_sub_step_order toyEngine 3 0 ⟨1, 0⟩ emptyRes toyWorld 0 3
      (by decide) (by decide) rfl (by decide)
      (by
        intro k hk
        interval_cases k
        · exact loop_test_self _
        · simp only [Function.iterate_succ, Function.iterate_zero, Function.comp_apply,
            id_eq, sub_step, toyEngine, toyWorld, loop_test, double_sub]
          exact round64_lt_budget (by norm_num)
        · simp only [Function.iterate_succ, Function.iterate_zero, Function.comp_apply,
            id_eq, sub_step, toyEngine, toyWorld, loop_test, double_sub]
          exact round64_lt_budget (by norm_num))
      (by
        simp only [Function.iterate_succ, Function.iterate_zero, Function.comp_apply,
          id_eq, sub_step, toyEngine, toyWorld, loop_test, double_sub]
        exact round64_not_lt_budget (by norm_num))
      (le_refl 3)
  exact ⟨r, w', h, by simpa [toyWorld, List.replicate] using hcalls⟩

/-- Counterexample to C10 as stated: from time 0 with the double nearest 1/120
as time step, `step` returns after two passes, at a time for which
`state.time - start_time < 1/60` still holds; the loop has not run while that
condition held. -/
theorem step_sub_step_order_counterexample :
    ∃ r w', step boundaryEngine 10 0 ⟨1, 0⟩ emptyRes boundaryWorld = .ret (true, r) w'
      ∧ w'.calls = [Call.mjdata_lock,
          Call.mj_step1, Call.apply_control 0 1 0, Call.mj_step2,
          Call.mj_step1, Call.apply_control 0 1 0, Call.mj_step2,
          Call.mjdata_unlock]
      ∧ w'.d.time - boundaryWorld.d.time < 1 / 60 :=
  ⟨_, _, boundary_step, rfl, by norm_num [boundaryWorld]⟩

/-- C4, evaluated on a car registry without `buddy` (only `car1`), not paused:
with any positive loop bound the first pass of the loop of `step` evaluates
`car_conn["buddy"]`, which inserts the key `buddy` with a null pointer, and the
call through that pointer ends the handler; the key set has changed from
`[car1]` to `[buddy, car1]`. -/
theorem step_inserts_buddy_key :
    ∀ fuel, ∃ w', step toyEngine (fuel + 1) 0 ⟨1, 0⟩ emptyRes toyWorldNoBuddy = .nullDeref w'
      ∧ toyWorldNoBuddy.car_conn.keys = ["car1"]
      ∧ w'.car_conn = [("buddy", none), ("car1", some 1)]
      ∧ w'.car_conn.keys = ["buddy", "car1"]
      ∧ w'.calls = [Call.mjdata_lock, Call.mj_step1] := by
  intro fuel
  refine ⟨_, step_without_buddy toyEngine fuel 0 ⟨1, 0⟩ emptyRes toyWorldNoBuddy rfl
    (by decide), by decide, ?_, ?_, rfl⟩
  · simp [toyWorldNoBuddy, StdMap.insertSorted]
    decide
  · simp [toyWorldNoBuddy, StdMap.insertSorted, StdMap.keys]
    decide

/-! ## Reset -/

theorem reset_mismatch (E : Engine σ) (now : Nat) (req : ResetRequest)
    (res : BodyStateArray) (w : World σ)
    (h : req.body_names.length ≠ req.init_state.length) :
    reset E now req res w = .ret (false, res) w.mjdata_lock := by
  simp [reset, h]

theorem reset_entry_body_live (E : Engine σ) (name : String) (pose : Pose) (w : World σ)
    (hb : Live w.body_conn) :
    reset_entry_body E name pose w
      = .ret () { w with
          d := (match w.body_conn.find name with
            | some (some body) => E.body_set_pose body pose w.d
            | _ => w.d)
          calls := w.calls ++ (match w.body_conn.find name with
            | some (some body) => [Call.body_set_pose body pose]
            | _ => []) } := by
  unfold reset_entry_body
  rcases hf : w.body_conn.find name with _ | _ | body
  · simp
  · exact absurd hf (find_live hb)
  · simp [World.call]

theorem reset_entry_live (E : Engine σ) (name : String) (pose : Pose) (w : World σ)
    (hc : Live w.car_conn) (hb : Live w.body_conn) :
    reset_entry E name pose w
      = .ret () { w with
          d := entry_data E w.car_conn w.body_conn name pose w.d
          calls := w.calls ++ entry_calls w.car_conn w.body_conn name pose } := by
  unfold reset_entry
  rcases hf : w.car_conn.find name with _ | _ | car
  · simp only [reset_entry_body_live E name pose w hb, entry_data, entry_calls, hf]
    simp
  · exact absurd hf (find_live hc)
  · simp only []
    refine (reset_entry_body_live E name pose _ ?_).trans ?_
    · exact hb
    · simp [World.call, entry_data, entry_calls, hf]

theorem reset_loop_live (E : Engine σ) (req : ResetRequest)
    (hlen : req.body_names.length = req.init_state.length) :
    ∀ (todo i : Nat) (w : World σ), Live w.car_conn → Live w.body_conn →
      i + todo = req.body_names.length →
      reset_loop E req todo i w
        = .ret () { w with
            d := entries_data E w.car_conn w.body_conn
              ((req.body_names.zip req.init_state).drop i) w.d
            calls := w.calls ++ entries_calls w.car_conn w.body_conn
              ((req.body_names.zip req.init_state).drop i) } := by
  intro todo
  induction todo with
  | zero =>
    intro i w _ _ hi
    have : (req.body_names.zip req.init_state).drop i = [] := by
      apply List.drop_eq_nil_of_le
      simp [List.length_zip, ← hlen]
      omega
    simp [reset_loop, this, entries_data, entries_calls]
  | succ todo ih =>
    intro i w hc hb hi
    have hn : i < req.body_names.length := by omega
    have hp : i < req.init_state.length := by omega
    have hz : i < (req.body_names.zip req.init_state).length := by
      simp [List.length_zip]; omega
    have hdrop : (req.body_names.zip req.init_state).drop i
        = (req.body_names[i], req.init_state[i])
          :: (req.body_names.zip req.init_state).drop (i + 1) := by
      rw [List.drop_eq_getElem_cons hz]
      simp
    simp only [reset_loop, List.getElem?_eq_getElem hn, List.getElem?_eq_getElem hp,
      reset_entry_live E _ _ w hc hb]
    refine (ih (i + 1) _ ?_ ?_ (by omega)).trans ?_
    · exact hc
    · exact hb
    · simp [hdrop, entries_data, entries_calls]

theorem reset_live (E : Engine σ) (now : Nat) (req : ResetRequest)
    (res : BodyStateArray) (w : World σ) (hc : Live w.car_conn) (hb : Live w.body_conn)
    (hlen : req.body_names.length = req.init_state.length) :
    reset E now req res w
      = .ret (true,
            ⟨(entries_data E w.car_conn w.body_conn (req.body_names.zip req.init_state)
                (E.util_reset w.d)).time, now,
              res.states ++ all_records E
                (entries_data E w.car_conn w.body_conn (req.body_names.zip req.init_state)
                  (E.util_reset w.d)) w.car_conn w.body_conn⟩)
          { w with
            d := entries_data E w.car_conn w.body_conn
              (req.body_names.zip req.init_state) (E.util_reset w.d)
            calls := w.calls ++ [Call.mjdata_lock, Call.util_reset]
              ++ entries_calls w.car_conn w.body_conn (req.body_names.zip req.init_state)
              ++ [Call.mjdata_unlock] } := by
  have hl := reset_loop_live E req hlen req.body_names.length 0
    ((w.mjdata_lock).call Call.util_reset E.util_reset) hc hb (by simp)
  simp only [reset]
  rw [if_neg (not_not.mpr hlen)]
  simp only [hl]
  refine (respond_live E now res _ ?_ ?_).trans ?_
  · exact hc
  · exact hb
  · simp [World.mjdata_unlock, World.mjdata_lock, World.call]

theorem find_pointer_mem {V : Type} {m : StdMap V} {k : String} {v : V}
    (h : m.find k = some v) : v ∈ m.map Prod.snd :=
  List.mem_map.mpr ⟨(k, v), find_mem h, rfl⟩

theorem find_inj {V : Type} {m : StdMap V} (hnd : (m.map Prod.snd).Nodup)
    {k k' : String} {v : V} (h : m.find k = some v) (h' : m.find k' = some v) : k = k' := by
  induction m with
  | nil => simp [StdMap.find] at h
  | cons e m ih =>
    obtain ⟨k₀, v₀⟩ := e
    simp only [List.map_cons, List.nodup_cons] at hnd
    by_cases hk : k₀ = k <;> by_cases hk' : k₀ = k'
    · exact hk.symm.trans hk'
    · rw [StdMap.find, if_pos hk] at h
      rw [StdMap.find, if_neg hk'] at h'
      injection h with h
      exact absurd (h ▸ find_pointer_mem h') hnd.1
    · rw [StdMap.find, if_neg hk] at h
      rw [StdMap.find, if_pos hk'] at h'
      injection h' with h'
      exact absurd (h' ▸ find_pointer_mem h) hnd.1
    · rw [StdMap.find, if_neg hk] at h
      rw [StdMap.find, if_neg hk'] at h'
      exact ih hnd.2 h h'

theorem entries_data_time (E : Engine σ) (hP : PoseContract E)
    (car_conn body_conn : StdMap ConnPtr) (l : List (String × Pose)) (d : MjData σ) :
    (entries_data E car_conn body_conn l d).time = d.time := by
  induction l generalizing d with
  | nil => rfl
  | cons e l ih =>
    simp only [entries_data, List.foldl_cons] at ih ⊢
    rw [ih]
    unfold entry_data
    rcases car_conn.find e.1 with _ | _ | c <;> rcases body_conn.find e.1 with _ | _ | b <;>
      simp [hP.car_set_time, hP.body_set_time]

theorem entry_data_car_pose (E : Engine σ) (hP : PoseContract E)
    {car_conn : StdMap ConnPtr} (body_conn : StdMap ConnPtr) {name : String} {car : Nat}
    (hf : car_conn.find name = some (some car)) (pose : Pose) (d : MjData σ) :
    E.car_pose car (entry_data E car_conn body_conn name pose d) = pose := by
  unfold entry_data
  rcases body_conn.find name with _ | _ | b <;>
    simp [hf, hP.car_pose_set, hP.car_pose_body]

theorem entry_data_car_pose_other (E : Engine σ) (hP : PoseContract E)
    {car_conn : StdMap ConnPtr} (body_conn : StdMap ConnPtr)
    (hnd : (car_conn.map Prod.snd).Nodup) {name name' : String} {car : Nat}
    (hf : car_conn.find name = some (some car)) (hne : name' ≠ name)
    (pose' : Pose) (d : MjData σ) :
    E.car_pose car (entry_data E car_conn body_conn name' pose' d) = E.car_pose car d := by
  unfold entry_data
  rcases hf' : car_conn.find name' with _ | _ | c' <;>
    rcases body_conn.find name' with _ | _ | b <;>
    simp only [hP.car_pose_body]
  all_goals
    have hcc : car ≠ c' := fun h => hne (find_inj hnd hf' (h ▸ hf))
    exact hP.car_pose_other _ _ _ _ hcc

theorem entry_data_body_pose (E : Engine σ) (hP : PoseContract E)
    (car_conn : StdMap ConnPtr) {body_conn : StdMap ConnPtr} {name : String} {body : Nat}
    (hf : body_conn.find name = some (some body)) (pose : Pose) (d : MjData σ) :
    E.body_pose body (entry_data E car_conn body_conn name pose d) = pose := by
  unfold entry_data
  simp [hf, hP.body_pose_set]

theorem entry_data_body_pose_other (E : Engine σ) (hP : PoseContract E)
    (car_conn : StdMap ConnPtr) {body_conn : StdMap ConnPtr}
    (hnd : (body_conn.map Prod.snd).Nodup) {name name' : String} {body : Nat}
    (hf : body_conn.find name = some (some body)) (hne : name' ≠ name)
    (pose' : Pose) (d : MjData σ) :
    E.body_pose body (entry_data E car_conn body_conn name' pose' d) = E.body_pose body d := by
  unfold entry_data
  rcases car_conn.find name' with _ | _ | c <;>
    rcases hf' : body_conn.find name' with _ | _ | b' <;>
    simp only [hP.body_pose_car]
  all_goals
    have hbb : body ≠ b' := fun h => hne (find_inj hnd hf' (h ▸ hf))
    simp only [hP.body_pose_other _ _ _ _ hbb, hP.body_pose_car]

theorem entries_data_car_pose_skip (E : Engine σ) (hP : PoseContract E)
    {car_conn : StdMap ConnPtr} (body_conn : StdMap ConnPtr)
    (hnd : (car_conn.map Prod.snd).Nodup) {name : String} {car : Nat}
    (hf : car_conn.find name = some (some car)) (l : List (String × Pose))
    (hl : name ∉ l.map Prod.fst) (d : MjData σ) :
    E.car_pose car (entries_data E car_conn body_conn l d) = E.car_pose car d := by
  induction l generalizing d with
  | nil => rfl
  | cons e l ih =>
    simp only [List.map_cons, List.mem_cons, not_or] at hl
    simp only [entries_data, List.foldl_cons] at ih ⊢
    rw [ih hl.2]
    exact entry_data_car_pose_other E hP body_conn hnd hf (fun h => hl.1 h.symm) _ _

theorem entries_data_car_pose (E : Engine σ) (hP : PoseContract E)
    {car_conn : StdMap ConnPtr} (body_conn : StdMap ConnPtr)
    (hnd : (car_conn.map Prod.snd).Nodup) {name : String} {car : Nat}
    (hf : car_conn.find name = some (some car)) (pose : Pose) (l : List (String × Pose))
    (hl : (l.map Prod.fst).Nodup) (hmem : (name, pose) ∈ l) (d : MjData σ) :
    E.car_pose car (entries_data E car_conn body_conn l d) = pose := by
  induction l generalizing d with
  | nil => simp at hmem
  | cons e l ih =>
    simp only [List.map_cons, List.nodup_cons] at hl
    rcases List.mem_cons.mp hmem with h | h
    · subst h
      have := entries_data_car_pose_skip E hP body_conn hnd hf l hl.1
        (entry_data E car_conn body_conn name pose d)
      simp only [entries_data, List.foldl_cons] at this ⊢
      rw [this]
      exact entry_data_car_pose E hP body_conn hf pose d
    · simp only [entries_data, List.foldl_cons] at ih ⊢
      exact ih hl.2 h _

theorem entries_data_body_pose_skip (E : Engine σ) (hP : PoseContract E)
    (car_conn : StdMap ConnPtr) {body_conn : StdMap ConnPtr}
    (hnd : (body_conn.map Prod.snd).Nodup) {name : String} {body : Nat}
    (hf : body_conn.find name = some (some body)) (l : List (String × Pose))
    (hl : name ∉ l.map Prod.fst) (d : MjData σ) :
    E.body_pose body (entries_data E car_conn body_conn l d) = E.body_pose body d := by
  induction l generalizing d with
  | nil => rfl
  | cons e l ih =>
    simp only [List.map_cons, List.mem_cons, not_or] at hl
    simp only [entries_data, List.foldl_cons] at ih ⊢
    rw [ih hl.2]
    exact entry_data_body_pose_other E hP car_conn hnd hf (fun h => hl.1 h.symm) _ _

theorem entries_data_body_pose (E : Engine σ) (hP : PoseContract E)
    (car_conn : StdMap ConnPtr) {body_conn : StdMap ConnPtr}
    (hnd : (body_conn.map Prod.snd).Nodup) {name : String} {body : Nat}
    (hf : body_conn.find name = some (some body)) (pose : Pose) (l : List (String × Pose))
    (hl : (l.map Prod.fst).Nodup) (hmem : (name, pose) ∈ l) (d : MjData σ) :
    E.body_pose body (entries_data E car_conn body_conn l d) = pose := by
  induction l generalizing d with
  | nil => simp at hmem
  | cons e l ih =>
    simp only [List.map_cons, List.nodup_cons] at hl
    rcases List.mem_cons.mp hmem with h | h
    · subst h
      have := entries_data_body_pose_skip E hP car_conn hnd hf l hl.1
        (entry_data E car_conn body_conn name pose d)
      simp only [entries_data, List.foldl_cons] at this ⊢
      rw [this]
      exact entry_data_body_pose E hP car_conn hf pose d
    · simp only [entries_data, List.foldl_cons] at ih ⊢
      exact ih hl.2 h _

theorem entry_calls_isSetPose (car_conn body_conn : StdMap ConnPtr) (name : String)
    (pose : Pose) : ∀ x ∈ entry_calls car_conn body_conn name pose, x.isSetPose = true := by
  intro x hx
  unfold entry_calls at hx
  rcases List.mem_append.mp hx with h | h <;> split at h <;> simp at h <;> subst h <;> rfl

theorem entries_calls_isSetPose (car_conn body_conn : StdMap ConnPtr)
    (l : List (String × Pose)) :
    ∀ x ∈ entries_calls car_conn body_conn l, x.isSetPose = true := by
  intro x hx
  simp only [entries_calls, List.mem_flatMap] at hx
  obtain ⟨e, _, hx⟩ := hx
  exact entry_calls_isSetPose _ _ _ _ x hx

theorem entry_calls_unknown (car_conn body_conn : StdMap ConnPtr) (name : String)
    (pose : Pose) (hc : car_conn.find name = none) (hb : body_conn.find name = none) :
    entry_calls car_conn body_conn name pose = [] := by
  simp [entry_calls, hc, hb]

theorem mem_entries_calls (car_conn body_conn : StdMap ConnPtr)
    (l : List (String × Pose)) {name : String} {pose : Pose} (h : (name, pose) ∈ l) :
    ∀ x ∈ entry_calls car_conn body_conn name pose, x ∈ entries_calls car_conn body_conn l := by
  intro x hx
  simp only [entries_calls, List.mem_flatMap]
  exact ⟨(name, pose), h, hx⟩

theorem toyEngine_contract : PoseContract toyEngine where
  car_pose_set := by intro c p d; simp [toyEngine]
  body_pose_set := by intro b p d; simp [toyEngine]
  car_pose_other := by intro c c' p d h; simp [toyEngine, Function.update_noteq h]
  body_pose_other := by intro b b' p d h; simp [toyEngine, Function.update_noteq h]
  car_pose_body := by intro c b p d; rfl
  body_pose_car := by intro b c p d; rfl
  car_set_time := by intro c p d; rfl
  body_set_time := by intro b p d; rfl

theorem respond_ret (E : Engine σ) (now : Nat) (res : BodyStateArray) (w : World σ)
    {b : Bool} {r : BodyStateArray} {w' : World σ}
    (h : respond E now res w = .ret (b, r) w') : b = true := by
  unfold respond at h
  split at h
  · cases h
  · injection h with h _
    injection h with h _
    exact h.symm

theorem reset_ret_false (E : Engine σ) (now : Nat) (req : ResetRequest)
    (res : BodyStateArray) (w : World σ) {r : BodyStateArray} {w' : World σ}
    (h : reset E now req res w = .ret (false, r) w') :
    req.body_names.length ≠ req.init_state.length := by
  intro hlen
  unfold reset at h
  simp only [] at h
  rw [if_neg (not_not.mpr hlen)] at h
  split at h
  · exact absurd (respond_ret E now res _ h) (by simp)
  · cases h
  · cases h
  · cases h

/-- C1, evaluated on `Reset(["a","b"], [p1])`: the handler returns `false`
having made its one `mjdata_lock` call and no `mjdata_unlock` call, so the
guard has one more outstanding acquisition than before the call. -/
theorem reset_mismatch_keeps_guard :
    ∃ w', reset toyEngine 0 ⟨["a", "b"], [poseAt 1]⟩ emptyRes toyWorld
        = .ret (false, emptyRes) w'
      ∧ w'.calls = [Call.mjdata_lock]
      ∧ w'.calls.count Call.mjdata_lock = 1
      ∧ w'.calls.count Call.mjdata_unlock = 0
      ∧ toyWorld.held = 0 ∧ w'.held = 1 :=
  ⟨_, rfl, rfl, by decide, by decide, rfl, rfl⟩

/-- C2. `reset` returns `false` exactly on a length mismatch.
With `body_names` and `init_state` of different lengths it returns `false`
with the response untouched, `mjData` unchanged (so `d->time` and every pose a
connector extracts are what they were), both registries unchanged, and
`mjdata_lock` as its only call: no engine reset and no `set_pose`.
With equal lengths and registries of non-null pointers it returns `true`; and
whenever it returns `false` the lengths differ. -/
theorem reset_fails_iff_mismatch (E : Engine σ) (now : Nat) (req : ResetRequest)
    (res : BodyStateArray) (w : World σ) :
    (req.body_names.length ≠ req.init_state.length →
      ∃ w', reset E now req res w = .ret (false, res) w'
        ∧ w'.d = w.d ∧ w'.d.time = w.d.time
        ∧ (∀ c, E.car_pose c w'.d = E.car_pose c w.d)
        ∧ (∀ b, E.body_pose b w'.d = E.body_pose b w.d)
        ∧ w'.car_conn = w.car_conn ∧ w'.body_conn = w.body_conn
        ∧ w'.calls = w.calls ++ [Call.mjdata_lock])
    ∧ (req.body_names.length = req.init_state.length →
        Live w.car_conn → Live w.body_conn →
        ∃ r w', reset E now req res w = .ret (true, r) w')
    ∧ (∀ r w', reset E now req res w = .ret (false, r) w' →
        req.body_names.length ≠ req.init_state.length) := by
  refine ⟨fun h => ⟨_, reset_mismatch E now req res w h, rfl, rfl, fun _ => rfl,
    fun _ => rfl, rfl, rfl, rfl⟩, fun hlen hc hb => ⟨_, _, reset_live E now req res w hc hb hlen⟩,
    fun r w' h => reset_ret_false E now req res w h⟩

/-- Witness of C2: `Reset(["a","b"], [p1])` fails and changes nothing,
`Reset(["car1"], [p1])` succeeds. -/
theorem reset_fails_iff_mismatch_witness :
    (∃ w', reset toyEngine 0 ⟨["a", "b"], [poseAt 1]⟩ emptyRes toyWorld
        = .ret (false, emptyRes) w'
      ∧ w'.d = toyWorld.d ∧ w'.d.time = toyWorld.d.time
      ∧ (∀ c, toyEngine.car_pose c w'.d = toyEngine.car_pose c toyWorld.d)
      ∧ (∀ b, toyEngine.body_pose b w'.d = toyEngine.body_pose b toyWorld.d)
      ∧ w'.car_conn = toyWorld.car_conn ∧ w'.body_conn = toyWorld.body_conn
      ∧ w'.calls = toyWorld.calls ++ [Call.mjdata_lock])
    ∧ (∃ r w', reset toyEngine 0 ⟨["car1"], [poseAt 1]⟩ emptyRes toyWorld
        = .ret (true, r) w') :=
  ⟨(reset_fails_iff_mismatch toyEngine 0 ⟨["a", "b"], [poseAt 1]⟩ emptyRes toyWorld).1
      (by decide),
    (reset_fails_iff_mismatch toyEngine 0 ⟨["car1"], [poseAt 1]⟩ emptyRes toyWorld).2.1
      rfl (by decide) (by decide)⟩

/-- C5. A `reset` with `body_names` and `init_state` of equal length and
pairwise distinct names, on registries of non-null pointers in which no
connector is registered twice, with connectors that keep `PoseContract`.
The handler returns `true`. Its calls are the lock, the engine reset, then only
`set_pose` calls, then the unlock. The snapshot's `simtime` is the time the
engine reset left. For every index `i`: if `body_names[i]` is registered in
`car_conn` (resp. `body_conn`), `set_pose(init_state[i])` is called on that
connector, the pose it extracts afterwards is `init_state[i]`, and the snapshot
holds its record with pose `init_state[i]`. -/
theorem reset_applies_poses (E : Engine σ) (hP : PoseContract E) (now : Nat)
    (req : ResetRequest) (res : BodyStateArray) (w : World σ)
    (hc : Live w.car_conn) (hb : Live w.body_conn)
    (hcd : (w.car_conn.map Prod.snd).Nodup) (hbd : (w.body_conn.map Prod.snd).Nodup)
    (hlen : req.body_names.length = req.init_state.length)
    (hnd : req.body_names.Nodup) :
    ∃ r w', reset E now req res w = .ret (true, r) w'
      ∧ (∃ pose_calls, w'.calls
            = w.calls ++ [Call.mjdata_lock, Call.util_reset] ++ pose_calls
              ++ [Call.mjdata_unlock]
          ∧ ∀ x ∈ pose_calls, x.isSetPose = true)
      ∧ r.simtime = (E.util_reset w.d).time
      ∧ ∀ (i : Nat) (name : String) (pose : Pose),
          req.body_names[i]? = some name → req.init_state[i]? = some pose →
          (∀ car, w.car_conn.find name = some (some car) →
            Call.car_set_pose car pose ∈ w'.calls.drop w.calls.length
            ∧ E.car_pose car w'.d = pose
            ∧ (⟨E.car_name car, pose⟩ : BodyState) ∈ r.states)
          ∧ (∀ body, w.body_conn.find name = some (some body) →
            Call.body_set_pose body pose ∈ w'.calls.drop w.calls.length
            ∧ E.body_pose body w'.d = pose
            ∧ (⟨E.body_name body, pose⟩ : BodyState) ∈ r.states) := by
  have hfst : ((req.body_names.zip req.init_state).map Prod.fst).Nodup := by
    rw [List.map_fst_zip _ _ (le_of_eq hlen)]
    exact hnd
  refine ⟨_, _, reset_live E now req res w hc hb hlen,
    ⟨_, rfl, entries_calls_isSetPose _ _ _⟩, entries_data_time E hP _ _ _ _, ?_⟩
  intro i name pose hname hpose
  have hmem : (name, pose) ∈ req.body_names.zip req.init_state :=
    List.getElem?_mem (List.getElem?_zip_eq_some.mpr ⟨hname, hpose⟩)
  constructor
  · intro car hf
    have hp := entries_data_car_pose E hP w.body_conn hcd hf pose _ hfst hmem
      (E.util_reset w.d)
    refine ⟨?_, hp, ?_⟩
    · simp only [List.append_assoc, List.drop_left]
      have : Call.car_set_pose car pose ∈ entry_calls w.car_conn w.body_conn name pose := by
        simp [entry_calls, hf]
      have := mem_entries_calls w.car_conn w.body_conn _ hmem _ this
      simp [this]
    · have : car_record E (entries_data E w.car_conn w.body_conn
          (req.body_names.zip req.init_state) (E.util_reset w.d)) car
          = ⟨E.car_name car, pose⟩ := by simp [car_record, hp]
      rw [← this]
      simp only [all_records, List.mem_append, List.mem_map]
      exact Or.inr (Or.inl ⟨car, find_conns hf, rfl⟩)
  · intro body hf
    have hp := entries_data_body_pose E hP w.car_conn hbd hf pose _ hfst hmem
      (E.util_reset w.d)
    refine ⟨?_, hp, ?_⟩
    · simp only [List.append_assoc, List.drop_left]
      have : Call.body_set_pose body pose ∈ entry_calls w.car_conn w.body_conn name pose := by
        simp [entry_calls, hf]
      have := mem_entries_calls w.car_conn w.body_conn _ hmem _ this
      simp [this]
    · have : body_record E (entries_data E w.car_conn w.body_conn
          (req.body_names.zip req.init_state) (E.util_reset w.d)) body
          = ⟨E.body_name body, pose⟩ := by simp [body_record, hp]
      rw [← this]
      simp only [all_records, List.mem_append, List.mem_map]
      exact Or.inr (Or.inr ⟨body, find_conns hf, rfl⟩)

/-- Witness of C5: `Reset(["car1"], [p])` on the toy world. -/
theorem reset_applies_poses_witness :
    ∃ r w', reset toyEngine 0 ⟨["car1"], [poseAt 3]⟩ emptyRes toyWorld = .ret (true, r) w'
      ∧ r.simtime = 0
      ∧ Call.car_set_pose 1 (poseAt 3) ∈ w'.calls
      ∧ toyEngine.car_pose 1 w'.d = poseAt 3
      ∧ (⟨"car1", poseAt 3⟩ : BodyState) ∈ r.states := by
  obtain ⟨r, w', h, -, htime, hpose⟩ :=
    reset_applies_poses toyEngine toyEngine_contract 0 ⟨["car1"], [poseAt 3]⟩ emptyRes
      toyWorld (by decide) (by decide) (by decide) (by decide) rfl (by decide)
  obtain ⟨hcall, hp, hrec⟩ := (hpose 0 "car1" (poseAt 3) rfl rfl).1 1 (by decide)
  exact ⟨r, w', h, htime, List.mem_of_mem_drop hcall, hp, by simpa [toyEngine] using hrec⟩

theorem all_records_names (E : Engine σ) (d : MjData σ) (car_conn body_conn : StdMap ConnPtr) :
    (all_records E d car_conn body_conn).map BodyState.name
      = (conns car_conn).map E.car_name ++ (conns body_conn).map E.body_name := by
  simp [all_records, car_record, body_record, Function.comp_def]

theorem keyNamed_mem {name : Nat → String} {m : StdMap ConnPtr} (h : KeyNamed name m)
    {k : String} (hk : k ∈ (conns m).map name) : k ∈ m.keys := by
  simp only [conns, List.mem_map, List.mem_filterMap] at hk
  obtain ⟨c, ⟨e, he, hc⟩, rfl⟩ := hk
  rw [h e he c hc]
  exact List.mem_map.mpr ⟨e, he, rfl⟩

/-- C6. A `reset` with `body_names` and `init_state` of equal length on
registries of non-null pointers returns `true`. Its calls are the lock, the
engine reset, the `set_pose` calls of each `(name, pose)` pair in order, and the
unlock, where a name found in neither registry contributes no call. Answering
into an empty response, the names of the snapshot's records are, in order, the
names of the records of a `get_state` snapshot of the same world; and when every
record is named by its registry key, no record carries a name that is found in
neither registry. -/
theorem reset_skips_unknown_names (E : Engine σ) (now : Nat) (req : ResetRequest)
    (res : BodyStateArray) (w : World σ) (hc : Live w.car_conn) (hb : Live w.body_conn)
    (hlen : req.body_names.length = req.init_state.length) (hres : res.states = []) :
    ∃ r w', reset E now req res w = .ret (true, r) w'
      ∧ w'.calls = w.calls ++ [Call.mjdata_lock, Call.util_reset]
          ++ (req.body_names.zip req.init_state).flatMap
              (fun e => entry_calls w.car_conn w.body_conn e.1 e.2)
          ++ [Call.mjdata_unlock]
      ∧ (∀ name pose, w.car_conn.find name = none → w.body_conn.find name = none →
          entry_calls w.car_conn w.body_conn name pose = [])
      ∧ (∀ now' res', res'.states = [] →
          ∃ r₀ w₀, get_state E now' res' w = .ret (true, r₀) w₀
            ∧ r.states.map BodyState.name = r₀.states.map BodyState.name)
      ∧ (KeyNamed E.car_name w.car_conn → KeyNamed E.body_name w.body_conn →
          ∀ name, w.car_conn.find name = none → w.body_conn.find name = none →
            name ∉ r.states.map BodyState.name) := by
  refine ⟨_, _, reset_live E now req res w hc hb hlen, rfl,
    fun name pose h₁ h₂ => entry_calls_unknown _ _ name pose h₁ h₂, ?_, ?_⟩
  · intro now' res' hres'
    refine ⟨_, _, get_state_live E now' res' w hc hb, ?_⟩
    simp only [hres, hres', List.nil_append, all_records_names]
  · intro hkc hkb name h₁ h₂ hmem
    simp only [hres, List.nil_append, all_records_names, List.mem_append] at hmem
    rcases hmem with h | h
    · exact find_eq_none.mp h₁ (keyNamed_mem hkc h)
    · exact find_eq_none.mp h₂ (keyNamed_mem hkb h)

/-- Witness of C6: `Reset(["ghost"], [p])` on the toy world. -/
theorem reset_skips_unknown_names_witness :
    ∃ r w', reset toyEngine 0 ⟨["ghost"], [poseAt 3]⟩ emptyRes toyWorld = .ret (true, r) w'
      ∧ w'.calls = [Call.mjdata_lock, Call.util_reset, Call.mjdata_unlock]
      ∧ (∃ r₀ w₀, get_state toyEngine 1 emptyRes toyWorld = .ret (true, r₀) w₀
          ∧ r.states.map BodyState.name = r₀.states.map BodyState.name)
      ∧ "ghost" ∉ r.states.map BodyState.name := by
  obtain ⟨r, w', h, hcalls, hskip, hget, hghost⟩ :=
    reset_skips_unknown_names toyEngine 0 ⟨["ghost"], [poseAt 3]⟩ emptyRes toyWorld
      (by decide) (by decide) rfl rfl
  refine ⟨r, w', h, ?_, hget 1 emptyRes rfl, ?_⟩
  · rw [hcalls]
    have hs := hskip "ghost" (poseAt 3) (by decide) (by decide)
    simp only [List.zip_cons_cons, List.zip_nil_right, List.flatMap_cons, List.flatMap_nil,
      hs]
    rfl
  · refine hghost ?_ ?_ "ghost" (by decide) (by decide)
    · intro e he c hc
      simp [toyWorld] at he
      rcases he with rfl | rfl <;> simp at hc <;> subst hc <;> rfl
    · intro e he c hc
      simp [toyWorld] at he
      subst he
      simp at hc
      subst hc
      rfl

end BlockBuddy
